import Mathlib

/-!
Verification of the Words API backend (`backend/main.py`).

The program has two components:
* `load_words` — reads a CSV file (`csv.DictReader`), normalizing each row
  into a record with a 1-based `id` and nine trimmed string fields, memoized
  for the process lifetime; raises `FileNotFoundError` when the CSV is absent.
* `get_words` — the `GET /api/words/` handler: presence-based mode switching
  between a bare full list and a `{meta, items}` paginated envelope, with
  case-insensitive substring filtering over five of the nine fields and
  `page`/`limit` slice arithmetic.

The embedding below is a direct shallow translation of that Python code.
The CSV file is modelled as `Option (List Row)`: `none` means the file does
not exist at the expected path, `some rows` is the sequence of data rows
produced by `csv.DictReader` (a missing column in a row surfaces as `none`,
mirroring `row.get(...)` returning `None`).  Python's `str.lower` is modelled
by mapping `Char.toLower` over the characters (`pyLower`), and `str.strip`
by dropping whitespace from both ends (`pyStrip`); the claims under study
are insensitive to the exact character-level case table.  `page` and `limit` are modelled as `Option Nat`:
FastAPI's boundary validation (`ge=1`, `le=500`) rejects other values before
the handler body runs, and the handler theorems carry those bounds as
hypotheses where they matter.
-/

/-- Model of Python's `str.strip()` on the character sequence: drop
whitespace from both ends. -/
def trimChars (cs : List Char) : List Char :=
  ((cs.dropWhile Char.isWhitespace).reverse.dropWhile Char.isWhitespace).reverse

/-- Python's `s.strip()`. -/
def pyStrip (s : String) : String := ⟨trimChars s.data⟩

/-- Model of Python's `str.lower()`: lowercase each character. -/
def pyLower (s : String) : String := ⟨s.data.map Char.toLower⟩

/-- One normalized vocabulary record, as built by `load_words`
(`main.py` lines 34–47).  The Python dict always carries exactly these ten
keys, so a structure is a faithful model. -/
structure Record where
  id : Nat
  word : String
  pronunciation : String
  definition : String
  «example» : String
  audio : String
  image : String
  file : String
  part_of_speech : String
  word_uz : String
deriving Repr, DecidableEq, Inhabited

/-- One raw CSV data row as surfaced by `csv.DictReader`: each named column
is either present with a string value or absent (`row.get(col)` is `None`).
Extra columns are never read by the code, so they are not modelled. -/
structure Row where
  word : Option String
  pronunciation : Option String
  definition : Option String
  «example» : Option String
  audio : Option String
  image : Option String
  file : Option String
  part_of_speech : Option String
  word_uz : Option String
deriving Repr, DecidableEq, Inhabited

/-- `(row.get(col) or "").strip()`: an absent column (and, vacuously, an
empty value, since `"" or ""` is `""`) becomes the empty string, and the
result is trimmed of leading/trailing whitespace. -/
def normField (v : Option String) : String :=
  pyStrip (v.getD "")

/-- Build the record for one row, given its 1-based index
(`main.py` lines 34–47). -/
def rowToRecord (idx : Nat) (row : Row) : Record :=
  { id := idx
    word := normField row.word
    pronunciation := normField row.pronunciation
    definition := normField row.definition
    «example» := normField row.«example»
    audio := normField row.audio
    image := normField row.image
    file := normField row.file
    part_of_speech := normField row.part_of_speech
    word_uz := normField row.word_uz }

/-- The loader's row loop: `for idx, row in enumerate(reader, start=1)`,
appending `rowToRecord idx row` for each row in source order. -/
def buildRecords : Nat → List Row → List Record
  | _, [] => []
  | idx, row :: rest => rowToRecord idx row :: buildRecords (idx + 1) rest

/-- The loader's failure mode: `FileNotFoundError` when the CSV path does
not exist (`main.py` lines 27–28). -/
inductive LoadError where
  | fileNotFound
deriving Repr, DecidableEq

/-- `load_words` (`main.py` lines 26–48): error when the backing file is
absent, otherwise one record per data row, ids starting at 1. -/
def load_words (source : Option (List Row)) : Except LoadError (List Record) :=
  match source with
  | none => Except.error LoadError.fileNotFound
  | some rows => Except.ok (buildRecords 1 rows)

/-- Whether a load attempt succeeded. -/
def loadOk (e : Except LoadError (List Record)) : Bool :=
  match e with
  | Except.ok _ => true
  | Except.error _ => false

/-- `hay` starts with `needle` (character lists). -/
def listStartsWith : List Char → List Char → Bool
  | _, [] => true
  | [], _ :: _ => false
  | a :: hay, b :: nee => (a == b) && listStartsWith hay nee

/-- Python's substring test `needle in hay`, on character lists. -/
def listContainsSub (hay needle : List Char) : Bool :=
  match hay with
  | [] => needle.isEmpty
  | _ :: t => listStartsWith hay needle || listContainsSub t needle

/-- Python's `needle in hay` on strings. -/
def pyIn (needle hay : String) : Bool :=
  listContainsSub hay.data needle.data

/-- The per-record match test of the filter comprehension
(`main.py` lines 88–92): the (already lowercased, trimmed) needle is a
substring of any of the five searched fields, lowercased.  The `or ""`
guards in the source are identities here because record fields are never
`None` after loading. -/
def matchesQuery (needle : String) (item : Record) : Bool :=
  pyIn needle (pyLower item.word) ||
  pyIn needle (pyLower item.definition) ||
  pyIn needle (pyLower item.«example») ||
  pyIn needle (pyLower item.word_uz) ||
  pyIn needle (pyLower item.part_of_speech)

/-- The filtering step (`main.py` lines 82–93): when `q` is supplied and
non-blank after trimming (`if q is not None and q.strip():`), keep exactly
the matching records in order; otherwise pass `all_words` through
unchanged. -/
def filteredWords (all_words : List Record) (q : Option String) : List Record :=
  match q with
  | none => all_words
  | some s =>
    if pyStrip s == "" then all_words
    else all_words.filter (matchesQuery (pyLower (pyStrip s)))

/-- `page or 1` (`main.py` line 99): Python `or` treats `0` as falsy, so it
also maps a (validation-excluded) explicit `0` to the default. -/
def effPage (page : Option Nat) : Nat :=
  match page with
  | none => 1
  | some p => if p == 0 then 1 else p

/-- `limit or 50` (`main.py` line 100). -/
def effLimit (limit : Option Nat) : Nat :=
  match limit with
  | none => 50
  | some l => if l == 0 then 50 else l

/-- `pages = (total + limit_value - 1) // limit_value if limit_value else 1`
(`main.py` line 105). -/
def pagesFormula (total limit_value : Nat) : Nat :=
  if limit_value ≠ 0 then (total + limit_value - 1) / limit_value else 1

/-- A response of the listing endpoint: either the bare array of
unfiltered mode or the `{meta, items}` envelope of paginated mode. -/
inductive WordsResponse where
  | plain (words : List Record)
  | paged (total pageV limitV pages : Nat) (q : String) (items : List Record)
deriving Repr, DecidableEq

/-- Whether the response is the bare-array form. -/
def WordsResponse.isPlain : WordsResponse → Bool
  | .plain _ => true
  | .paged _ _ _ _ _ _ => false

/-- Whether the response is the paginated envelope. -/
def WordsResponse.isPaged : WordsResponse → Bool
  | .plain _ => false
  | .paged _ _ _ _ _ _ => true

/-- The record list carried by the response, in either mode. -/
def WordsResponse.itemsList : WordsResponse → List Record
  | .plain ws => ws
  | .paged _ _ _ _ _ items => items

/-- `meta.total`, when the response is an envelope. -/
def WordsResponse.metaTotal : WordsResponse → Option Nat
  | .plain _ => none
  | .paged total _ _ _ _ _ => some total

/-- `meta.page`, when the response is an envelope. -/
def WordsResponse.metaPage : WordsResponse → Option Nat
  | .plain _ => none
  | .paged _ pageV _ _ _ _ => some pageV

/-- `meta.limit`, when the response is an envelope. -/
def WordsResponse.metaLimit : WordsResponse → Option Nat
  | .plain _ => none
  | .paged _ _ limitV _ _ _ => some limitV

/-- `meta.pages`, when the response is an envelope. -/
def WordsResponse.metaPages : WordsResponse → Option Nat
  | .plain _ => none
  | .paged _ _ _ pages _ _ => some pages

/-- `meta.q`, when the response is an envelope. -/
def WordsResponse.metaQ : WordsResponse → Option String
  | .plain _ => none
  | .paged _ _ _ _ q _ => some q

/-- `items`, when the response is an envelope. -/
def WordsResponse.pagedItems : WordsResponse → Option (List Record)
  | .plain _ => none
  | .paged _ _ _ _ _ items => some items

/-- `get_words` (`main.py` lines 68–116), as a function of the loaded
dataset and the three optional query parameters.  The slice
`filtered[start:end]` with `0 ≤ start ≤ end` is `drop start` then
`take (end - start)`. -/
def get_words (all_words : List Record) (q : Option String)
    (page limit : Option Nat) : WordsResponse :=
  let wants_pagination := q.isSome || page.isSome || limit.isSome
  let filtered := filteredWords all_words q
  if !wants_pagination then
    WordsResponse.plain filtered
  else
    let page_value := effPage page
    let limit_value := effLimit limit
    let total := filtered.length
    let start := (page_value - 1) * limit_value
    let stop := start + limit_value
    let items := (filtered.drop start).take (stop - start)
    let pages := pagesFormula total limit_value
    WordsResponse.paged total page_value limit_value pages (q.getD "") items

/-! ### Sample data for concrete instantiations -/

/-- The first record of the spec's end-to-end example. -/
def sampleApple : Record :=
  { id := 1, word := "Apple", pronunciation := "", definition := "a fruit"
    «example» := "", audio := "", image := "", file := ""
    part_of_speech := "", word_uz := "" }

/-- The second record of the spec's end-to-end example. -/
def sampleBanana : Record :=
  { id := 2, word := "Banana", pronunciation := "", definition := "a fruit"
    «example» := "", audio := "", image := "", file := ""
    part_of_speech := "", word_uz := "" }

/-- The third record of the spec's end-to-end example. -/
def sampleCar : Record :=
  { id := 3, word := "Car", pronunciation := "", definition := "a vehicle"
    «example» := "", audio := "", image := "", file := ""
    part_of_speech := "", word_uz := "" }

/-- The spec's three-record end-to-end dataset. -/
def sampleWords : List Record := [sampleApple, sampleBanana, sampleCar]

/-- A minimal record with a given id, for pagination examples. -/
def mkRec (n : Nat) : Record :=
  { id := n, word := "w", pronunciation := "", definition := ""
    «example» := "", audio := "", image := "", file := ""
    part_of_speech := "", word_uz := "" }

/-- A ten-record dataset (the spec's P3 pagination example sizes). -/
def tenWords : List Record := (List.range 10).map fun i => mkRec (i + 1)

/-- A CSV row whose `audio` (and most other) columns are absent, and whose
present fields carry surrounding whitespace. -/
def testRow : Row :=
  { word := some "  Apple ", pronunciation := none, definition := some "a fruit"
    «example» := none, audio := none, image := none, file := none
    part_of_speech := none, word_uz := none }

/-! ### Substring characterization

`listContainsSub` (the model of Python's `in`) is proved equivalent to the
mathematical substring property, so theorems can speak about genuine
substrings rather than about the implementation function. -/

/-- `listStartsWith hay nee` holds exactly when `hay` extends `nee`. -/
theorem listStartsWith_iff (hay nee : List Char) :
    listStartsWith hay nee = true ↔ ∃ rest, hay = nee ++ rest := by
  induction nee generalizing hay with
  | nil => simp [listStartsWith]
  | cons b bs ih =>
    cases hay with
    | nil => simp [listStartsWith]
    | cons a t =>
      simp only [listStartsWith, Bool.and_eq_true, beq_iff_eq, ih, List.cons_append,
        List.cons.injEq]
      constructor
      · rintro ⟨rfl, rest, rfl⟩; exact ⟨rest, rfl, rfl⟩
      · rintro ⟨rest, rfl, rfl⟩; exact ⟨rfl, rest, rfl⟩

/-- `listContainsSub hay nee` holds exactly when `nee` occurs contiguously
inside `hay`. -/
theorem listContainsSub_iff (hay nee : List Char) :
    listContainsSub hay nee = true ↔ ∃ pre post, hay = pre ++ nee ++ post := by
  induction hay with
  | nil =>
    simp only [listContainsSub, List.isEmpty_iff]
    constructor
    · rintro rfl; exact ⟨[], [], rfl⟩
    · rintro ⟨pre, post, h⟩
      rcases List.append_eq_nil.mp (List.append_eq_nil.mp h.symm).1 with ⟨-, h2⟩
      · exact h2
  | cons a t ih =>
    simp only [listContainsSub, Bool.or_eq_true, listStartsWith_iff, ih]
    constructor
    · rintro (⟨rest, h⟩ | ⟨pre, post, h⟩)
      · exact ⟨[], rest, by simpa using h⟩
      · exact ⟨a :: pre, post, by simp [h]⟩
    · rintro ⟨pre, post, h⟩
      cases pre with
      | nil => exact Or.inl ⟨post, by simpa using h⟩
      | cons x xs =>
        simp only [List.cons_append, List.cons.injEq] at h
        exact Or.inr ⟨xs, post, h.2⟩

/-- Python's `needle in hay` holds exactly when `needle`'s characters occur
contiguously inside `hay`'s. -/
theorem pyIn_iff (needle hay : String) :
    pyIn needle hay = true ↔ ∃ pre post, hay.data = pre ++ needle.data ++ post :=
  listContainsSub_iff hay.data needle.data

/-! ### Claim theorems -/

/-- C1: mode selection is presence-based.  With `q`, `page`, `limit` all
absent, `get_words` returns the bare list, equal (hence equal in length and
order) to the loaded dataset; the response is the bare list exactly when all
three parameters are absent; and supplying any one of them (including
`q = some ""`) yields the paginated envelope. -/
theorem mode_selection (all_words : List Record) (q : Option String)
    (page limit : Option Nat) :
    get_words all_words none none none = WordsResponse.plain all_words ∧
    ((get_words all_words q page limit).isPlain = true ↔
      q = none ∧ page = none ∧ limit = none) ∧
    (q.isSome = true ∨ page.isSome = true ∨ limit.isSome = true →
      (get_words all_words q page limit).isPaged = true) :=
  by
  refine ⟨rfl, ?_, ?_⟩
  · cases q <;> cases page <;> cases limit <;>
      simp [get_words, WordsResponse.isPlain]
  · intro h
    have hw : (q.isSome || page.isSome || limit.isSome) = true := by
      rcases h with h | h | h <;> simp [h]
    simp [get_words, hw, WordsResponse.isPaged]

/-- C1 witness: with `q = some ""` (empty string supplied) the response is
the paginated envelope. -/
theorem mode_selection_witness :
    (get_words sampleWords (some "") none none).isPaged = true :=
  (mode_selection sampleWords (some "") none none).2.2 (Or.inl rfl)

/-- C2: filtering correctness.  For a `q` that is non-blank after trimming,
a record is kept iff it belongs to the dataset and the needle (q trimmed and
lowercased) occurs as a substring of one of the five searched fields,
lowercased; the result is a sublist of the dataset (original order
preserved); the match test reads only the five searched fields, so
`pronunciation`, `audio`, `image`, `file` never cause a match; and an
absent or blank-after-trimming `q` passes every record through. -/
theorem filtering_matches (all_words : List Record) (s : String)
    (hs : pyStrip s ≠ "") :
    (∀ r, r ∈ filteredWords all_words (some s) ↔
      r ∈ all_words ∧
      ((∃ pre post, (pyLower r.word).data =
          pre ++ (pyLower (pyStrip s)).data ++ post) ∨
       (∃ pre post, (pyLower r.definition).data =
          pre ++ (pyLower (pyStrip s)).data ++ post) ∨
       (∃ pre post, (pyLower r.«example»).data =
          pre ++ (pyLower (pyStrip s)).data ++ post) ∨
       (∃ pre post, (pyLower r.word_uz).data =
          pre ++ (pyLower (pyStrip s)).data ++ post) ∨
       (∃ pre post, (pyLower r.part_of_speech).data =
          pre ++ (pyLower (pyStrip s)).data ++ post))) ∧
    List.Sublist (filteredWords all_words (some s)) all_words ∧
    (∀ needle r r2, r.word = r2.word → r.definition = r2.definition →
      r.«example» = r2.«example» → r.word_uz = r2.word_uz →
      r.part_of_speech = r2.part_of_speech →
      matchesQuery needle r = matchesQuery needle r2) ∧
    (∀ (all2 : List Record) (t : String), pyStrip t = "" →
      filteredWords all2 (some t) = all2) ∧
    (∀ all2 : List Record, filteredWords all2 none = all2) :=
  by
  have hne : (pyStrip s == "") = false := by
    simpa [beq_iff_eq] using hs
  refine ⟨?_, ?_, ?_, ?_, fun _ => rfl⟩
  · intro r
    simp [filteredWords, hne, List.mem_filter, matchesQuery, pyIn_iff, or_assoc]
  · simp only [filteredWords, hne, Bool.false_eq_true, if_false]
    exact List.filter_sublist all_words
  · intro needle r r2 h1 h2 h3 h4 h5
    simp [matchesQuery, h1, h2, h3, h4, h5]
  · intro all2 t ht
    simp [filteredWords, ht]

/-- C2 witness: searching the three-record sample dataset for "fruit"
yields a sublist of the dataset. -/
theorem filtering_matches_witness :
    List.Sublist (filteredWords sampleWords (some "fruit")) sampleWords :=
  (filtering_matches sampleWords "fruit" (by decide)).2.1

/-- C3: pagination slice.  In paginated mode the effective page and limit
are at least 1, `items` is the slice of the filtered sequence from offset
`(page-1)*limit` of length `limit`, and an offset at or beyond the filtered
total yields the empty `items` list (no error is possible: the handler is a
total function). -/
theorem pagination_slice (all_words : List Record) (q : Option String)
    (page limit : Option Nat)
    (hmode : q.isSome = true ∨ page.isSome = true ∨ limit.isSome = true) :
    (get_words all_words q page limit).pagedItems =
      some (((filteredWords all_words q).drop
        ((effPage page - 1) * effLimit limit)).take (effLimit limit)) ∧
    1 ≤ effPage page ∧ 1 ≤ effLimit limit ∧
    ((filteredWords all_words q).length ≤ (effPage page - 1) * effLimit limit →
      (get_words all_words q page limit).pagedItems = some []) :=
  by
  have hw : (q.isSome || page.isSome || limit.isSome) = true := by
    rcases hmode with h | h | h <;> simp [h]
  have hitems : (get_words all_words q page limit).pagedItems =
      some (((filteredWords all_words q).drop
        ((effPage page - 1) * effLimit limit)).take (effLimit limit)) := by
    simp [get_words, hw, WordsResponse.pagedItems]
  refine ⟨hitems, ?_, ?_, ?_⟩
  · cases page with
    | none => simp [effPage]
    | some p => simp only [effPage]; split <;> simp_all <;> omega
  · cases limit with
    | none => simp [effLimit]
    | some l => simp only [effLimit]; split <;> simp_all <;> omega
  · intro hoff
    rw [hitems, List.drop_eq_nil_of_le hoff]
    simp

/-- C3 witness: ten records, `page=5`, `limit=3` — the offset 12 is beyond
the total 10, so `items` is empty. -/
theorem pagination_slice_witness :
    (get_words tenWords none (some 5) (some 3)).pagedItems = some [] :=
  (pagination_slice tenWords none (some 5) (some 3)
    (Or.inr (Or.inl rfl))).2.2.2 (by decide)

/-- C4: pages formula.  The effective limit is always positive; `meta.pages`
is computed by `pagesFormula` on the filtered total and the effective limit;
for positive `l` the formula is the floor division `(total + l - 1) / l` and
it is the ceiling of `total / l` (characterized by
`total ≤ l * pages < total + l`); and the formula's value at limit `0` is
defined to be 1 (a defensive branch that no reachable input exercises,
since the effective limit is never 0). -/
theorem pages_formula (all_words : List Record) (q : Option String)
    (page limit : Option Nat)
    (hmode : q.isSome = true ∨ page.isSome = true ∨ limit.isSome = true) :
    0 < effLimit limit ∧
    (get_words all_words q page limit).metaPages =
      some (pagesFormula (filteredWords all_words q).length (effLimit limit)) ∧
    (∀ total l, 0 < l → pagesFormula total l = (total + l - 1) / l) ∧
    (∀ total l, 0 < l →
      total ≤ l * pagesFormula total l ∧
      l * pagesFormula total l < total + l) ∧
    (∀ total, pagesFormula total 0 = 1) :=
  by
  have hw : (q.isSome || page.isSome || limit.isSome) = true := by
    rcases hmode with h | h | h <;> simp [h]
  refine ⟨?_, ?_, ?_, ?_, fun _ => rfl⟩
  · cases limit with
    | none => simp [effLimit]
    | some l => simp only [effLimit]; split <;> simp_all <;> omega
  · simp [get_words, hw, WordsResponse.metaPages]
  · intro total l hl
    simp [pagesFormula, hl.ne']
  · intro total l hl
    rw [pagesFormula, if_pos hl.ne']
    have h1 := Nat.div_add_mod (total + l - 1) l
    have h2 : (total + l - 1) % l < l := Nat.mod_lt _ hl
    generalize hx : l * ((total + l - 1) / l) = X at h1 ⊢
    omega

/-- C4 witness: ten records with `limit=3` — `meta.pages` is the formula
value (which evaluates to 4, the ceiling of 10/3). -/
theorem pages_formula_witness :
    (get_words tenWords none none (some 3)).metaPages =
      some (pagesFormula (filteredWords tenWords none).length
        (effLimit (some 3))) ∧
    pagesFormula (filteredWords tenWords none).length (effLimit (some 3)) = 4 :=
  ⟨(pages_formula tenWords none none (some 3) (Or.inr (Or.inr rfl))).2.1,
   by decide⟩

/-- C5: effective defaults and echo.  Given boundary-validated inputs
(`page ≥ 1`, `limit ≥ 1` when supplied), the envelope's `meta.page` is the
supplied page or 1, `meta.limit` is the supplied limit or 50, and `meta.q`
is the original `q` exactly as supplied, or `""` when absent. -/
theorem defaults_and_echo (all_words : List Record) (q : Option String)
    (page limit : Option Nat)
    (hpage : ∀ p, page = some p → 1 ≤ p)
    (hlimit : ∀ l, limit = some l → 1 ≤ l)
    (hmode : q.isSome = true ∨ page.isSome = true ∨ limit.isSome = true) :
    (get_words all_words q page limit).metaPage = some (page.getD 1) ∧
    (get_words all_words q page limit).metaLimit = some (limit.getD 50) ∧
    (get_words all_words q page limit).metaQ = some (q.getD "") :=
  by
  have hw : (q.isSome || page.isSome || limit.isSome) = true := by
    rcases hmode with h | h | h <;> simp [h]
  have hp : effPage page = page.getD 1 := by
    cases page with
    | none => rfl
    | some p =>
      have := hpage p rfl
      simp only [effPage, Option.getD_some]
      split <;> simp_all
  have hl : effLimit limit = limit.getD 50 := by
    cases limit with
    | none => rfl
    | some l =>
      have := hlimit l rfl
      simp only [effLimit, Option.getD_some]
      split <;> simp_all
  refine ⟨?_, ?_, ?_⟩ <;>
    simp [get_words, hw, WordsResponse.metaPage, WordsResponse.metaLimit,
      WordsResponse.metaQ, hp, hl]

/-- C5 witness: with only `page=2` supplied, the envelope echoes page 2,
default limit 50, and empty `q`. -/
theorem defaults_and_echo_witness :
    (get_words sampleWords none (some 2) none).metaPage = some 2 ∧
    (get_words sampleWords none (some 2) none).metaLimit = some 50 ∧
    (get_words sampleWords none (some 2) none).metaQ = some "" :=
  by
  exact defaults_and_echo sampleWords none (some 2) none
    (fun p hp => by injection hp with h; omega)
    (fun l hl => Option.noConfusion hl)
    (Or.inr (Or.inl rfl))

/-! ### Loader lemmas -/

/-- `buildRecords` produces one record per row. -/
theorem buildRecords_length (k : Nat) (rows : List Row) :
    (buildRecords k rows).length = rows.length := by
  induction rows generalizing k with
  | nil => rfl
  | cons r rest ih => simp [buildRecords, ih]

/-- The record at position `i` of `buildRecords k rows` is built from the
row at position `i` with index `k + i`. -/
theorem buildRecords_get (k : Nat) (rows : List Row) (i : Nat)
    (hi : i < rows.length) (hr : i < (buildRecords k rows).length) :
    (buildRecords k rows).get ⟨i, hr⟩ = rowToRecord (k + i) (rows.get ⟨i, hi⟩) := by
  induction rows generalizing k i with
  | nil => exact absurd hi (by simp)
  | cons r rest ih =>
    cases i with
    | zero => simp [buildRecords]
    | succ n =>
      have h2 : n < rest.length := by simpa using hi
      have h3 : n < (buildRecords (k + 1) rest).length := by
        rw [buildRecords_length]; exact h2
      simp only [buildRecords, List.get_cons_succ]
      rw [ih (k + 1) n h2 h3]
      congr 1
      omega

/-- C6: loader normalization.  Loading an existing source yields exactly
`buildRecords 1 rows`: one record per row in source order; the record at
0-based position `i` has `id = i + 1` (so ids are 1-based, consecutive, and
— last conjunct — unique); each of the nine textual fields is the trimmed
source field, with an absent field becoming the empty string (shown
explicitly for an absent `audio`). -/
theorem loader_normalization (rows : List Row) :
    load_words (some rows) = Except.ok (buildRecords 1 rows) ∧
    (buildRecords 1 rows).length = rows.length ∧
    (∀ i (hi : i < rows.length) (hr : i < (buildRecords 1 rows).length),
      ((buildRecords 1 rows).get ⟨i, hr⟩).id = i + 1 ∧
      ((buildRecords 1 rows).get ⟨i, hr⟩).word =
        pyStrip ((rows.get ⟨i, hi⟩).word.getD "") ∧
      ((buildRecords 1 rows).get ⟨i, hr⟩).pronunciation =
        pyStrip ((rows.get ⟨i, hi⟩).pronunciation.getD "") ∧
      ((buildRecords 1 rows).get ⟨i, hr⟩).definition =
        pyStrip ((rows.get ⟨i, hi⟩).definition.getD "") ∧
      ((buildRecords 1 rows).get ⟨i, hr⟩).«example» =
        pyStrip ((rows.get ⟨i, hi⟩).«example».getD "") ∧
      ((buildRecords 1 rows).get ⟨i, hr⟩).audio =
        pyStrip ((rows.get ⟨i, hi⟩).audio.getD "") ∧
      ((buildRecords 1 rows).get ⟨i, hr⟩).image =
        pyStrip ((rows.get ⟨i, hi⟩).image.getD "") ∧
      ((buildRecords 1 rows).get ⟨i, hr⟩).file =
        pyStrip ((rows.get ⟨i, hi⟩).file.getD "") ∧
      ((buildRecords 1 rows).get ⟨i, hr⟩).part_of_speech =
        pyStrip ((rows.get ⟨i, hi⟩).part_of_speech.getD "") ∧
      ((buildRecords 1 rows).get ⟨i, hr⟩).word_uz =
        pyStrip ((rows.get ⟨i, hi⟩).word_uz.getD "") ∧
      ((rows.get ⟨i, hi⟩).audio = none →
        ((buildRecords 1 rows).get ⟨i, hr⟩).audio = "")) ∧
    (∀ i j (hi : i < (buildRecords 1 rows).length)
        (hj : j < (buildRecords 1 rows).length),
      ((buildRecords 1 rows).get ⟨i, hi⟩).id =
        ((buildRecords 1 rows).get ⟨j, hj⟩).id → i = j) :=
  by
  refine ⟨rfl, buildRecords_length 1 rows, ?_, ?_⟩
  · intro i hi hr
    rw [buildRecords_get 1 rows i hi hr]
    refine ⟨by simp [rowToRecord, Nat.add_comm], rfl, rfl, rfl, rfl, rfl, rfl,
      rfl, rfl, rfl, ?_⟩
    intro h
    simp only [rowToRecord]
    rw [h]
    decide
  · intro i j hi hj h
    have hi2 : i < rows.length := by rwa [buildRecords_length] at hi
    have hj2 : j < rows.length := by rwa [buildRecords_length] at hj
    rw [buildRecords_get 1 rows i hi2 hi, buildRecords_get 1 rows j hj2 hj] at h
    simp only [rowToRecord] at h
    omega

/-- C6 witness: a single-row source whose row has whitespace-padded `word`,
and no `audio` column — the built record has `id = 1`, trimmed `word`, and
`audio = ""`. -/
theorem loader_normalization_witness :
    ((buildRecords 1 [testRow]).get ⟨0, by decide⟩).id = 0 + 1 ∧
    ((buildRecords 1 [testRow]).get ⟨0, by decide⟩).word = "Apple" ∧
    ((buildRecords 1 [testRow]).get ⟨0, by decide⟩).audio = "" :=
  by
  have h := (loader_normalization [testRow]).2.2.1 0 (by decide) (by decide)
  exact ⟨h.1, by rw [h.2.1]; decide, h.2.2.2.2.2.2.2.2.2.2 rfl⟩

/-- C7: loader failure.  `load_words` succeeds iff the backing source
exists; when it does not, the error is exactly the not-found error; when it
does, loading returns a record list for every row sequence, however
malformed or partial the rows are (all-absent rows included) — no other
failure mode exists. -/
theorem loader_failure (source : Option (List Row)) :
    (loadOk (load_words source) = true ↔ source.isSome = true) ∧
    load_words none = Except.error LoadError.fileNotFound ∧
    (∀ rows, load_words (some rows) = Except.ok (buildRecords 1 rows)) :=
  by
  refine ⟨?_, rfl, fun _ => rfl⟩
  cases source <;> simp [load_words, loadOk]

/-- C9: the handler never modifies the dataset.  `get_words` is a pure
function of the loaded list (the embedding of a handler that performs no
mutating operation); every record it returns is drawn unchanged from the
input list — the returned item list is a sublist of the dataset — and the
all-absent request returns the dataset itself, so the memoized value is
observationally identical across any number of requests. -/
theorem no_mutation (all_words : List Record) (q : Option String)
    (page limit : Option Nat) :
    List.Sublist ((get_words all_words q page limit).itemsList) all_words ∧
    (∀ r, r ∈ (get_words all_words q page limit).itemsList → r ∈ all_words) ∧
    get_words all_words none none none = WordsResponse.plain all_words :=
  by
  have hsub : List.Sublist (filteredWords all_words q) all_words := by
    cases q with
    | none => exact List.Sublist.refl _
    | some s =>
      simp only [filteredWords]
      split
      · exact List.Sublist.refl _
      · exact List.filter_sublist all_words
  have hmain : List.Sublist ((get_words all_words q page limit).itemsList)
      all_words := by
    cases hb : (q.isSome || page.isSome || limit.isSome) with
    | false => simpa [get_words, hb, WordsResponse.itemsList] using hsub
    | true =>
      simp only [get_words, hb, Bool.not_true, Bool.false_eq_true, if_false,
        WordsResponse.itemsList]
      exact ((List.take_sublist _ _).trans (List.drop_sublist _ _)).trans hsub
  exact ⟨hmain, fun r hr => hmain.subset hr, rfl⟩

/-- C10: empty-dataset edge case.  An existing but row-less source loads
successfully to the empty sequence; the unfiltered request on the empty
dataset returns the empty bare array; and any paginated request on it
returns an envelope with `meta.total = 0` and empty `items`. -/
theorem empty_dataset (q : Option String) (page limit : Option Nat)
    (hmode : q.isSome = true ∨ page.isSome = true ∨ limit.isSome = true) :
    load_words (some []) = Except.ok [] ∧
    get_words [] none none none = WordsResponse.plain [] ∧
    (get_words [] q page limit).metaTotal = some 0 ∧
    (get_words [] q page limit).pagedItems = some [] :=
  by
  have hw : (q.isSome || page.isSome || limit.isSome) = true := by
    rcases hmode with h | h | h <;> simp [h]
  have hfil : filteredWords [] q = [] := by
    cases q with
    | none => rfl
    | some s =>
      simp only [filteredWords]
      split <;> rfl
  refine ⟨rfl, rfl, ?_, ?_⟩ <;>
    simp [get_words, hw, hfil, WordsResponse.metaTotal, WordsResponse.pagedItems]

/-- C10 witness: a paginated request (`q = some "x"`) on the empty dataset
has total 0 and no items. -/
theorem empty_dataset_witness :
    (get_words [] (some "x") none none).metaTotal = some 0 ∧
    (get_words [] (some "x") none none).pagedItems = some [] :=
  ⟨(empty_dataset (some "x") none none (Or.inl rfl)).2.2.1,
   (empty_dataset (some "x") none none (Or.inl rfl)).2.2.2⟩

/-! ### Concrete end-to-end checks of the embedding

These mirror the spec's worked examples: the E2E search
`?q=fruit&page=1&limit=1` over the three-record dataset, and the P3
pagination arithmetic over ten records. -/

example : get_words sampleWords (some "fruit") (some 1) (some 1) =
    WordsResponse.paged 2 1 1 2 "fruit" [sampleApple] := by decide

example : get_words sampleWords none none none =
    WordsResponse.plain [sampleApple, sampleBanana, sampleCar] := by decide

example : (get_words tenWords none (some 4) (some 3)).pagedItems =
    some [mkRec 10] := by decide

example : (get_words sampleWords (some "FRUIT") none none).metaTotal =
    some 2 := by decide

example : buildRecords 1 [testRow] = [sampleApple] := by decide
